import Mathlib

/-!
# Test-analytics persistence pipeline: shallow embedding

Embedding of the test-analytics subsystem of the repository:
the SQLite-backed store (`tests/db/database.ts` plus the SQL constants in
`queries.ts`), the Playwright reporter (`dbReporter.ts`), and the dashboard
renderer utilities (`DashboardUtils.ts`, `HtmlTemplateEngine.ts`).

Numeric columns are modelled with `ℕ` (counters) and `ℚ` (durations and the
REAL-typed averages / scores); SQL text columns with `String`; nullable
columns with `Option`.
-/

namespace TestAnalytics

/-- The Playwright result status enumeration used by `TestResult.status`
(`database.ts`, `TestResult` interface). -/
inductive Status
  | passed
  | failed
  | skipped
  | timedOut
  | interrupted
deriving DecidableEq, Repr

/-- A test result record as assembled by the reporter and handed to the store
(`TestResult` in `database.ts`; only fields the verified operations read). -/
structure TestResult where
  runId : String
  testId : String
  testName : String
  testFile : String
  browser : String
  status : Status
  durationMs : ℚ
  errorMessage : Option String := none
  retryCount : ℕ := 0
deriving DecidableEq, Repr

/-- A row of the `test_history` table (`SCHEMA_INIT` in `queries.ts`).
`avg_duration_ms` is REAL; `min_duration_ms` / `max_duration_ms` hold the
incoming JS durations, modelled uniformly in `ℚ`. -/
structure HistoryRow where
  testId : String
  testName : String
  testFile : String
  totalRuns : ℕ
  passCount : ℕ
  failCount : ℕ
  skipCount : ℕ
  flakyCount : ℕ
  avgDurationMs : ℚ
  minDurationMs : ℚ
  maxDurationMs : ℚ
  lastStatus : Option Status
  lastRunAt : String
  lastFailedAt : Option String
  firstRunAt : String
deriving DecidableEq, Repr

/-- The bound-parameter record built in `TestDatabase.updateTestHistory`
(`database.ts` lines 264–275). -/
structure HistoryParams where
  testId : String
  testName : String
  testFile : String
  passed : ℕ
  failed : ℕ
  skipped : ℕ
  flaky : ℕ
  durationMs : ℚ
  lastStatus : Status
  lastRunAt : String
deriving DecidableEq, Repr

/-- Parameter derivation from a result (`database.ts` lines 264–275):
`passed/failed/skipped` are 0/1 indicators of the status, `flaky` is 1 iff
`retryCount > 0 && status === 'passed'`; `lastRunAt` is the wall-clock
timestamp taken at call time (passed in here as `now`). -/
def historyParams (result : TestResult) (now : String) : HistoryParams :=
  { testId := result.testId
    testName := result.testName
    testFile := result.testFile
    passed := if result.status = Status.passed then 1 else 0
    failed := if result.status = Status.failed then 1 else 0
    skipped := if result.status = Status.skipped then 1 else 0
    flaky := if 0 < result.retryCount ∧ result.status = Status.passed then 1 else 0
    durationMs := result.durationMs
    lastStatus := result.status
    lastRunAt := now }

/-- `INSERT_TEST_HISTORY` (`queries.ts` lines 573–583): seeds the row with
`total_runs = 1`, the 0/1 indicators, and the single duration as
avg/min/max. -/
def insertTestHistoryRow (p : HistoryParams) : HistoryRow :=
  { testId := p.testId
    testName := p.testName
    testFile := p.testFile
    totalRuns := 1
    passCount := p.passed
    failCount := p.failed
    skipCount := p.skipped
    flakyCount := p.flaky
    avgDurationMs := p.durationMs
    minDurationMs := p.durationMs
    maxDurationMs := p.durationMs
    lastStatus := some p.lastStatus
    lastRunAt := p.lastRunAt
    lastFailedAt := if p.failed = 1 then some p.lastRunAt else none
    firstRunAt := p.lastRunAt }

/-- `UPDATE_TEST_HISTORY` (`queries.ts` lines 556–571). Per SQLite semantics
every right-hand side of the SET clause is evaluated against the
pre-update row, so `total_runs` in the average formula is the old value. -/
def updateTestHistoryRow (old : HistoryRow) (p : HistoryParams) : HistoryRow :=
  { old with
    totalRuns := old.totalRuns + 1
    passCount := old.passCount + p.passed
    failCount := old.failCount + p.failed
    skipCount := old.skipCount + p.skipped
    flakyCount := old.flakyCount + p.flaky
    avgDurationMs := (old.avgDurationMs * (old.totalRuns : ℚ) + p.durationMs) / ((old.totalRuns : ℚ) + 1)
    minDurationMs :=
      if p.durationMs < old.minDurationMs ∨ old.minDurationMs = 0 then p.durationMs
      else old.minDurationMs
    maxDurationMs :=
      if p.durationMs > old.maxDurationMs then p.durationMs
      else old.maxDurationMs
    lastStatus := some p.lastStatus
    lastRunAt := p.lastRunAt
    lastFailedAt := if p.failed = 1 then some p.lastRunAt else old.lastFailedAt }

/-- `TestDatabase.updateTestHistory` (`database.ts` lines 261–284): read the
current row for the test id, then run UPDATE if present else INSERT. -/
def updateTestHistory (existing : Option HistoryRow) (result : TestResult) (now : String) : HistoryRow :=
  let params := historyParams result now
  match existing with
  | some old => updateTestHistoryRow old params
  | none => insertTestHistoryRow params

/-- Sequential processing of a stream of `(result, timestamp)` events for one
test identifier through `updateTestHistory`, starting from no row. -/
def processHistory (events : List (TestResult × String)) : Option HistoryRow :=
  events.foldl (fun acc e => some (updateTestHistory acc e.1 e.2)) none

/-- Number of events whose status is one of `passed`, `failed`, `skipped`
(the three statuses whose counters `UPDATE_TEST_HISTORY` increments). -/
def countedStatuses (events : List (TestResult × String)) : ℕ :=
  events.countP fun e =>
    decide (e.1.status = Status.passed ∨ e.1.status = Status.failed ∨ e.1.status = Status.skipped)

/-- A fixed sample result used for concrete evaluations. -/
def sampleResult (s : Status) (d : ℚ) : TestResult :=
  { runId := "run-1"
    testId := "test-1"
    testName := "sample test"
    testFile := "tests/sample.spec.ts"
    browser := "chromium"
    status := s
    durationMs := d }

/-- The computed column of `SELECT_FLAKY_TESTS` (`queries.ts` 589–596):
`CAST(fail_count AS REAL) / CAST(total_runs AS REAL) * 100`. -/
def flakinessScore (h : HistoryRow) : ℚ :=
  (h.failCount : ℚ) / (h.totalRuns : ℚ) * 100

/-- The WHERE clause of `SELECT_FLAKY_TESTS`:
`total_runs >= 2 AND fail_count > 0 AND pass_count > 0`. -/
def isFlakyCandidate (h : HistoryRow) : Bool :=
  decide (2 ≤ h.totalRuns) && decide (0 < h.failCount) && decide (0 < h.passCount)

/-- `ORDER BY flakiness_score DESC` as a relation on rows. -/
def flakyOrder (a b : HistoryRow) : Prop :=
  flakinessScore b ≤ flakinessScore a

instance : DecidableRel flakyOrder :=
  fun a b => inferInstanceAs (Decidable (flakinessScore b ≤ flakinessScore a))

instance : IsTotal HistoryRow flakyOrder :=
  ⟨fun a b => le_total (flakinessScore b) (flakinessScore a)⟩

instance : IsTrans HistoryRow flakyOrder :=
  ⟨fun _ _ _ h1 h2 => le_trans h2 h1⟩

/-- `TestDatabase.getFlakyTests` at row level (`database.ts` 296–300 running
`SELECT_FLAKY_TESTS`): filter by the WHERE clause, order by score
descending, truncate to the limit. -/
def getFlakyTests (limit : ℕ) (rows : List HistoryRow) : List HistoryRow :=
  (List.insertionSort flakyOrder (rows.filter isFlakyCandidate)).take limit

/-- `ORDER BY avg_duration_ms DESC` of `SELECT_SLOWEST_TESTS`. -/
def slowOrder (a b : HistoryRow) : Prop :=
  b.avgDurationMs ≤ a.avgDurationMs

instance : DecidableRel slowOrder :=
  fun a b => inferInstanceAs (Decidable (b.avgDurationMs ≤ a.avgDurationMs))

/-- A SQL result row of a history read: the stored columns plus the
`flakiness_score` column, present only when the query computes it
(`SELECT_FLAKY_TESTS` does; the `SELECT *` queries do not). -/
structure SqlHistoryRow where
  row : HistoryRow
  flakiness_score : Option ℚ
deriving DecidableEq, Repr

/-- The `TestHistory` record returned to callers; duration and identity
columns plus the optional score (`TestHistory` interface, `database.ts`). -/
structure TestHistoryRec where
  testId : String
  testName : String
  testFile : String
  totalRuns : ℕ
  passCount : ℕ
  failCount : ℕ
  skipCount : ℕ
  flakyCount : ℕ
  avgDurationMs : ℚ
  minDurationMs : ℚ
  maxDurationMs : ℚ
  flakinessScore : Option ℚ
deriving DecidableEq, Repr

/-- `TestDatabase.mapToTestHistory` (`database.ts` 467–489): copies the
columns; `flakinessScore` is `row.flakiness_score as number | undefined`,
so it is absent whenever the query did not compute that column. -/
def mapToTestHistory (r : SqlHistoryRow) : TestHistoryRec :=
  { testId := r.row.testId
    testName := r.row.testName
    testFile := r.row.testFile
    totalRuns := r.row.totalRuns
    passCount := r.row.passCount
    failCount := r.row.failCount
    skipCount := r.row.skipCount
    flakyCount := r.row.flakyCount
    avgDurationMs := r.row.avgDurationMs
    minDurationMs := r.row.minDurationMs
    maxDurationMs := r.row.maxDurationMs
    flakinessScore := r.flakiness_score }

/-- `TestDatabase.getTestHistory`: `SELECT * FROM test_history WHERE
test_id = ?` then `mapToTestHistory`; `SELECT *` yields no
`flakiness_score` column. -/
def getTestHistory (rows : List HistoryRow) (tid : String) : Option TestHistoryRec :=
  (rows.find? fun h => decide (h.testId = tid)).map fun h => mapToTestHistory ⟨h, none⟩

/-- `TestDatabase.getFlakyTests` including the mapper: rows carry the
computed `flakiness_score` column. -/
def getFlakyTestsMapped (limit : ℕ) (rows : List HistoryRow) : List TestHistoryRec :=
  (getFlakyTests limit rows).map fun h => mapToTestHistory ⟨h, some (flakinessScore h)⟩

/-- `TestDatabase.getSlowestTests` (`SELECT_SLOWEST_TESTS`, `queries.ts`
598–603): `SELECT *` with `total_runs > 0`, ordered by average duration
descending, truncated; no `flakiness_score` column. -/
def getSlowestTests (limit : ℕ) (rows : List HistoryRow) : List TestHistoryRec :=
  ((List.insertionSort slowOrder (rows.filter fun h => decide (0 < h.totalRuns))).take limit).map
    fun h => mapToTestHistory ⟨h, none⟩

/-- A stored history row for a test that failed its single run
(`totalRuns=1, failCount=1, passCount=0`). -/
def neverPassedRow : HistoryRow :=
  { testId := "t-never"
    testName := "never passes"
    testFile := "a.spec.ts"
    totalRuns := 1
    passCount := 0
    failCount := 1
    skipCount := 0
    flakyCount := 0
    avgDurationMs := 100
    minDurationMs := 100
    maxDurationMs := 100
    lastStatus := some Status.failed
    lastRunAt := "ts1"
    lastFailedAt := some "ts1"
    firstRunAt := "ts1" }

/-- A stored history row with `totalRuns=5, passCount=4, failCount=1`
(flakiness 20.0). -/
def flaky20Row : HistoryRow :=
  { testId := "t-flaky"
    testName := "sometimes fails"
    testFile := "b.spec.ts"
    totalRuns := 5
    passCount := 4
    failCount := 1
    skipCount := 0
    flakyCount := 1
    avgDurationMs := 50
    minDurationMs := 40
    maxDurationMs := 60
    lastStatus := some Status.passed
    lastRunAt := "ts5"
    lastFailedAt := some "ts2"
    firstRunAt := "ts1" }

/-- The final snapshot computed in `DbReporter.onEnd`
(`dbReporter.ts` 147–171) from the results collected in memory. -/
structure RunSummary where
  totalTests : ℕ
  passed : ℕ
  failed : ℕ
  skipped : ℕ
  flaky : ℕ
  passRate : ℚ
  durationMs : ℚ
deriving DecidableEq, Repr

/-- `DbReporter.onEnd` summary computation: filter counts over
`this.results`, `total = this.results.length`, and
`passRate = total > 0 ? (passed / total) * 100 : 0`. -/
def onEndSummary (results : List TestResult) (durationMs : ℚ) : RunSummary :=
  let passed := (results.filter fun r => decide (r.status = Status.passed)).length
  let failed := (results.filter fun r => decide (r.status = Status.failed)).length
  let skipped := (results.filter fun r => decide (r.status = Status.skipped)).length
  let flaky := (results.filter fun r =>
    decide (0 < r.retryCount) && decide (r.status = Status.passed)).length
  let total := results.length
  { totalTests := total
    passed := passed
    failed := failed
    skipped := skipped
    flaky := flaky
    passRate := if 0 < total then ((passed : ℚ) / (total : ℚ)) * 100 else 0
    durationMs := durationMs }

/-- The mutable columns `UPDATE_TEST_RUN` overwrites (`queries.ts` 505–516,
bound in `updateTestRun`, `database.ts` 193–206; `onEnd` supplies every
field, so the `?? 0` defaults do not fire). -/
structure StoredRunFields where
  finishedAt : Option String
  totalTests : ℕ
  passed : ℕ
  failed : ℕ
  skipped : ℕ
  flaky : ℕ
  passRate : ℚ
  durationMs : ℚ
deriving DecidableEq, Repr

/-- The `updateTestRun` call made by `onEnd` (`dbReporter.ts` 160–171). -/
def updateTestRunFinal (s : RunSummary) (finishedAt : String) : StoredRunFields :=
  { finishedAt := some finishedAt
    totalTests := s.totalTests
    passed := s.passed
    failed := s.failed
    skipped := s.skipped
    flaky := s.flaky
    passRate := s.passRate
    durationMs := s.durationMs }

/-- A demo run: four results, three passed and one failed. -/
def demoResults : List TestResult :=
  [sampleResult Status.passed 10, sampleResult Status.passed 20,
    sampleResult Status.passed 30, sampleResult Status.failed 40]

/-- Single-character global replacement: the effect of one
`.replace(/c/g, r)` step on the character sequence. -/
def replaceAllChar (s : List Char) (c : Char) (r : List Char) : List Char :=
  s.flatMap fun x => if x = c then r else [x]

/-- The double-quote character. -/
def quoteChar : Char := Char.ofNat 34

/-- The single-quote character. -/
def aposChar : Char := Char.ofNat 39

/-- `DashboardUtils.escapeHtml` (`DashboardUtils.ts` 28–35): the five
global replacements in source order — ampersand, `<`, `>`, double quote,
single quote. -/
def escapeHtml (text : String) : String :=
  String.mk
    (replaceAllChar
      (replaceAllChar
        (replaceAllChar
          (replaceAllChar
            (replaceAllChar text.data '&' "&amp;".data)
            '<' "&lt;".data)
          '>' "&gt;".data)
        quoteChar "&quot;".data)
      aposChar "&#039;".data)

/-- `DashboardUtils.extractFilename`:
`filePath.split(/[/\\]/).pop() || filePath` — the last path segment, or the
whole path when that segment is empty. -/
def extractFilename (filePath : String) : String :=
  let last := String.mk
    ((filePath.data.reverse.takeWhile fun c =>
      !(decide (c = '/') || decide (c = '\\'))).reverse)
  if last = "" then filePath else last

/-- `message.split('\n')[0]`: the prefix before the first newline. -/
def firstLine (s : String) : String :=
  String.mk (s.data.takeWhile fun c => !decide (c = '\n'))

/-- `HtmlTemplateEngine.generateFailureRow` (`HtmlTemplateEngine.ts`
427–443): the failure table row. The error message and its title version go
through `escapeHtml`; the test name and browser are interpolated as-is. -/
def generateFailureRow (test : TestResult) : String :=
  let filename := extractFilename test.testFile
  let errorMessage :=
    match test.errorMessage with
    | some m => escapeHtml (firstLine m)
    | none => "No error message"
  let fullError :=
    match test.errorMessage with
    | some m => escapeHtml m
    | none => ""
  "\n          <tr>\n            <td>" ++ test.testName
    ++ "</td>\n            <td><code>" ++ filename
    ++ "</code></td>\n            <td>" ++ test.browser
    ++ "</td>\n            <td style=\"max-width:400px;overflow:hidden;text-overflow:ellipsis;white-space:nowrap;\" title=\""
    ++ fullError
    ++ "\">\n              " ++ errorMessage
    ++ "\n            </td>\n          </tr>"

/-- A failed result whose test name carries markup and whose error message
carries markup. -/
def scriptNameTest : TestResult :=
  { runId := "run-1"
    testId := "t-xss"
    testName := "<script>alert(1)</script>"
    testFile := "tests/xss.spec.ts"
    browser := "chromium"
    status := Status.failed
    durationMs := 5
    errorMessage := some "<b>boom</b>"
    retryCount := 0 }

/-- Reporter per-run state relevant to `onTestEnd` (`dbReporter.ts`):
the collected results, the `dbErrorLogged` flag, and the number of error
lines written to the console. -/
structure ReporterRunState where
  results : List TestResult
  dbErrorLogged : Bool
  errorLogCount : ℕ
deriving DecidableEq, Repr

/-- Fresh reporter state at run start (`results = []`,
`dbErrorLogged = false`). -/
def initRunState : ReporterRunState :=
  { results := [], dbErrorLogged := false, errorLogCount := 0 }

/-- Whether a storage write outcome is a thrown exception. -/
def isThrow (e : Except String Unit) : Bool :=
  match e with
  | Except.ok _ => false
  | Except.error _ => true

/-- `DbReporter.onTestEnd` (`dbReporter.ts` 94–145), with the combined
`insertTestResult` / `updateTestHistory` write outcome supplied by the
environment: the result is pushed first; a thrown write is caught, and
logged only if `dbErrorLogged` is not yet set (then the flag is set). The
function is total — no exception propagates to the test framework. -/
def onTestEnd (st : ReporterRunState) (t : TestResult) (write : Except String Unit) :
    ReporterRunState :=
  let st1 := { st with results := st.results ++ [t] }
  match write with
  | Except.ok _ => st1
  | Except.error _ =>
      if st1.dbErrorLogged then st1
      else { st1 with dbErrorLogged := true, errorLogCount := st1.errorLogCount + 1 }

/-- A whole run of `onTestEnd` calls from a fresh reporter state. -/
def runTestEnds (calls : List (TestResult × Except String Unit)) : ReporterRunState :=
  calls.foldl (fun st c => onTestEnd st c.1 c.2) initRunState

/-- A concrete run in which the second and third writes throw. -/
def errorCalls : List (TestResult × Except String Unit) :=
  [(sampleResult Status.passed 5, Except.ok ()),
    (sampleResult Status.failed 6, Except.error "disk full"),
    (sampleResult Status.passed 7, Except.error "disk full"),
    (sampleResult Status.passed 8, Except.ok ())]

/-- Phase of one in-flight `updateTestHistory` call (`database.ts`
261–284): before its SELECT, after the SELECT (capturing the row it saw as
`existing`), or after its write. -/
inductive CallPhase
  | pending
  | readDone (captured : Option HistoryRow)
  | finished
deriving DecidableEq, Repr

/-- Global state of K interleaved `updateTestHistory` calls for one test
identifier: the `test_history` row and each call's phase. -/
structure UpsertRace where
  store : Option HistoryRow
  calls : List ((TestResult × String) × CallPhase)
deriving DecidableEq, Repr

/-- The write half of one `updateTestHistory` call. A call that read no row
runs `INSERT_TEST_HISTORY`; if the row meanwhile exists the INSERT throws
on the `UNIQUE(test_id)` constraint, the reporter catches it, and the
result is dropped (row unchanged). A call that read a row runs
`UPDATE_TEST_HISTORY`, whose arithmetic increments the engine applies
against the row current at write time. -/
def applyWrite (captured : Option HistoryRow) (store : Option HistoryRow)
    (e : TestResult × String) : Option HistoryRow :=
  match captured with
  | none =>
      match store with
      | none => some (insertTestHistoryRow (historyParams e.1 e.2))
      | some cur => some cur
  | some _ =>
      match store with
      | some cur => some (updateTestHistoryRow cur (historyParams e.1 e.2))
      | none => none

/-- One scheduler step: advance call `i` by one phase (first its SELECT,
then its write). Out-of-range indices and finished calls are no-ops. -/
def stepCall (cfg : UpsertRace) (i : ℕ) : UpsertRace :=
  match cfg.calls[i]? with
  | none => cfg
  | some (e, CallPhase.pending) =>
      { cfg with calls := cfg.calls.set i (e, CallPhase.readDone cfg.store) }
  | some (e, CallPhase.readDone captured) =>
      { store := applyWrite captured cfg.store e
        calls := cfg.calls.set i (e, CallPhase.finished) }
  | some (_, CallPhase.finished) => cfg

/-- Run an interleaving schedule (a list of call indices). -/
def runSchedule (cfg : UpsertRace) (sched : List ℕ) : UpsertRace :=
  sched.foldl stepCall cfg

/-- Initial race state: the given stored row and all calls pending. -/
def initRace (store : Option HistoryRow) (events : List (TestResult × String)) : UpsertRace :=
  { store := store, calls := events.map fun e => (e, CallPhase.pending) }

/-- Number of calls that have completed their write. -/
def finishedCount (cfg : UpsertRace) : ℕ :=
  cfg.calls.countP fun c => decide (c.2 = CallPhase.finished)

/-- Invariant of the race when the history row already exists: the row
stays present, its `totalRuns` is the base value plus the number of
finished calls, every SELECT captured a present row, and the call count is
fixed. -/
def raceInv (base : ℕ) (n : ℕ) (cfg : UpsertRace) : Prop :=
  cfg.calls.length = n ∧
  (∀ c ∈ cfg.calls, ∀ cap, c.2 = CallPhase.readDone cap → cap.isSome = true) ∧
  ∃ r, cfg.store = some r ∧ r.totalRuns = base + finishedCount cfg

/-- Two concurrent results for the same test identifier. -/
def raceEvents : List (TestResult × String) :=
  [(sampleResult Status.passed 5, "a"), (sampleResult Status.failed 7, "b")]

/-- The write operations `DbReporter` issues against the store. -/
inductive WriteOp
  | insertRun
  | insertResult
  | updateHistory
  | updateRun
deriving DecidableEq, Repr

/-- `DbReporter` instance state relevant to construction failure
(`dbReporter.ts` fields `db`, `initError`, `results`). -/
structure DbReporterState where
  db : Option Unit
  initError : Option String
  results : List TestResult
deriving DecidableEq, Repr

/-- The `DbReporter` constructor (`dbReporter.ts` 33–44): the
`TestDatabase.getInstance` outcome is supplied by the environment; a throw
is caught, leaving `db = null` with the error recorded. Total — the
constructor never rethrows. -/
def mkDbReporter (getInstance : Except String Unit) : DbReporterState :=
  match getInstance with
  | Except.ok d => { db := some d, initError := none, results := [] }
  | Except.error e => { db := none, initError := some e, results := [] }

/-- `DbReporter.onBegin` (`dbReporter.ts` 82–89): inserts the run row only
when `db` is non-null; returns the store writes performed. Total. -/
def onBeginWrites (r : DbReporterState) : List WriteOp :=
  match r.db with
  | some _ => [WriteOp.insertRun]
  | none => []

/-- `DbReporter.onTestEnd` (`dbReporter.ts` 113–125) as seen by C10: the
result is pushed, and only with a non-null `db` are the two store writes
attempted. Total. -/
def onTestEndStep (r : DbReporterState) (t : TestResult) : DbReporterState × List WriteOp :=
  ({ r with results := r.results ++ [t] },
    match r.db with
    | some _ => [WriteOp.insertResult, WriteOp.updateHistory]
    | none => [])

/-- `DbReporter.onEnd` (`dbReporter.ts` 160–171 and 209–221): with a null
`db` no final update is written and the "no results stored" diagnostic is
printed instead. Returns the writes and whether that diagnostic was
printed. Total. -/
def onEndStep (r : DbReporterState) : List WriteOp × Bool :=
  match r.db with
  | some _ => ([WriteOp.updateRun], false)
  | none => ([], true)

lemma ite_gt_eq_max (m d : ℚ) : (if d > m then d else m) = max m d := by
  rcases le_or_lt d m with hle | hlt
  · rw [if_neg (not_lt.mpr hle), max_eq_left hle]
  · rw [if_pos hlt, max_eq_right hlt.le]

lemma ite_lt_eq_min (m d : ℚ) (hm : 0 < m) :
    (if d < m ∨ m = 0 then d else m) = min m d := by
  rcases lt_or_le d m with hlt | hle
  · rw [if_pos (Or.inl hlt), min_eq_right hlt.le]
  · rw [if_neg ?_, min_eq_left hle]
    rintro (h | h)
    · exact absurd h (not_lt.mpr hle)
    · exact absurd h hm.ne'

lemma countedStatuses_cons (e : TestResult × String) (es : List (TestResult × String)) :
    countedStatuses (e :: es)
      = countedStatuses es +
        (if e.1.status = Status.passed ∨ e.1.status = Status.failed ∨
            e.1.status = Status.skipped then 1 else 0) := by
  simp [countedStatuses, List.countP_cons]

/-- The parameter indicators sum to 1 exactly on the three counted statuses. -/
lemma historyParams_indicator_sum (r : TestResult) (now : String) :
    (historyParams r now).passed + (historyParams r now).failed + (historyParams r now).skipped
      = if r.status = Status.passed ∨ r.status = Status.failed ∨
            r.status = Status.skipped then 1 else 0 := by
  cases hs : r.status <;> simp [historyParams, hs]

/-- Invariants of one fold step of `processHistory`, accumulated from an
arbitrary existing row. -/
lemma processHistory_fold (events : List (TestResult × String)) :
    ∀ h0 : HistoryRow,
      ∃ h, events.foldl (fun acc e => some (updateTestHistory acc e.1 e.2)) (some h0) = some h ∧
        h.totalRuns = h0.totalRuns + events.length ∧
        h.passCount + h.failCount + h.skipCount
          = h0.passCount + h0.failCount + h0.skipCount + countedStatuses events ∧
        h.maxDurationMs = (events.map fun e => e.1.durationMs).foldl max h0.maxDurationMs ∧
        (0 < h0.minDurationMs → (∀ e ∈ events, 0 < e.1.durationMs) →
          h.minDurationMs = (events.map fun e => e.1.durationMs).foldl min h0.minDurationMs ∧
            0 < h.minDurationMs) := by
  induction events with
  | nil =>
      intro h0
      exact ⟨h0, rfl, by simp [countedStatuses], by simp [countedStatuses],
        rfl, fun hm _ => ⟨rfl, hm⟩⟩
  | cons e es ih =>
      intro h0
      obtain ⟨h, hfold, h1, h2, h3, h4⟩ := ih (updateTestHistory (some h0) e.1 e.2)
      refine ⟨h, hfold, ?_, ?_, ?_, ?_⟩
      · have : (updateTestHistory (some h0) e.1 e.2).totalRuns = h0.totalRuns + 1 := rfl
        rw [h1, this, List.length_cons]
        omega
      · have hstep :
            (updateTestHistory (some h0) e.1 e.2).passCount
              + (updateTestHistory (some h0) e.1 e.2).failCount
              + (updateTestHistory (some h0) e.1 e.2).skipCount
              = h0.passCount + h0.failCount + h0.skipCount +
                (if e.1.status = Status.passed ∨ e.1.status = Status.failed ∨
                    e.1.status = Status.skipped then 1 else 0) := by
          have := historyParams_indicator_sum e.1 e.2
          show h0.passCount + (historyParams e.1 e.2).passed
              + (h0.failCount + (historyParams e.1 e.2).failed)
              + (h0.skipCount + (historyParams e.1 e.2).skipped) = _
          omega
        rw [h2, hstep, countedStatuses_cons]
        omega
      · have hstep : (updateTestHistory (some h0) e.1 e.2).maxDurationMs
            = max h0.maxDurationMs e.1.durationMs := by
          show (if e.1.durationMs > h0.maxDurationMs then e.1.durationMs
              else h0.maxDurationMs) = _
          exact ite_gt_eq_max _ _
        rw [h3, hstep, List.map_cons, List.foldl_cons]
      · intro hm hall
        have hd : 0 < e.1.durationMs := hall e (List.mem_cons_self e es)
        have hstep : (updateTestHistory (some h0) e.1 e.2).minDurationMs
            = min h0.minDurationMs e.1.durationMs := by
          show (if e.1.durationMs < h0.minDurationMs ∨ h0.minDurationMs = 0
              then e.1.durationMs else h0.minDurationMs) = _
          exact ite_lt_eq_min _ _ hm
        have hm' : 0 < (updateTestHistory (some h0) e.1 e.2).minDurationMs := by
          rw [hstep]
          exact lt_min hm hd
        obtain ⟨h5, h6⟩ := h4 hm' fun x hx => hall x (List.mem_cons_of_mem e hx)
        refine ⟨?_, h6⟩
        rw [h5, hstep, List.map_cons, List.foldl_cons]

/-- Facts about the seed row created by the INSERT branch. -/
lemma insertTestHistory_counts (r : TestResult) (now : String) :
    (updateTestHistory none r now).totalRuns = 1 ∧
    (updateTestHistory none r now).passCount + (updateTestHistory none r now).failCount
        + (updateTestHistory none r now).skipCount
      = (if r.status = Status.passed ∨ r.status = Status.failed ∨
            r.status = Status.skipped then 1 else 0) ∧
    (updateTestHistory none r now).maxDurationMs = r.durationMs ∧
    (updateTestHistory none r now).minDurationMs = r.durationMs := by
  refine ⟨rfl, ?_, rfl, rfl⟩
  cases hs : r.status <;> simp [updateTestHistory, insertTestHistoryRow, historyParams, hs]

/-- State change of one `onTestEnd` call: the result is always appended;
the flag absorbs a throw; the error log grows only on the first throw. -/
lemma onTestEnd_step (st : ReporterRunState) (t : TestResult) (w : Except String Unit) :
    (onTestEnd st t w).results = st.results ++ [t] ∧
    (onTestEnd st t w).dbErrorLogged = (st.dbErrorLogged || isThrow w) ∧
    (onTestEnd st t w).errorLogCount
      = st.errorLogCount +
        (if st.dbErrorLogged = false ∧ isThrow w = true then 1 else 0) := by
  cases w with
  | ok _ => simp [onTestEnd, isThrow]
  | error _ => cases hb : st.dbErrorLogged <;> simp [onTestEnd, isThrow, hb]

/-- Fold form of `onTestEnd_step` over a whole run from any state. -/
lemma runTestEnds_fold (calls : List (TestResult × Except String Unit)) :
    ∀ st : ReporterRunState,
      (calls.foldl (fun st c => onTestEnd st c.1 c.2) st).results
          = st.results ++ calls.map Prod.fst ∧
      (calls.foldl (fun st c => onTestEnd st c.1 c.2) st).dbErrorLogged
          = (st.dbErrorLogged || calls.any fun c => isThrow c.2) ∧
      (calls.foldl (fun st c => onTestEnd st c.1 c.2) st).errorLogCount
          = st.errorLogCount +
            (if st.dbErrorLogged = false ∧ (calls.any fun c => isThrow c.2) = true
              then 1 else 0) := by
  induction calls with
  | nil => intro st; simp
  | cons c cs ih =>
      intro st
      obtain ⟨ih1, ih2, ih3⟩ := ih (onTestEnd st c.1 c.2)
      obtain ⟨s1, s2, s3⟩ := onTestEnd_step st c.1 c.2
      refine ⟨?_, ?_, ?_⟩
      · rw [List.foldl_cons, ih1, s1, List.map_cons]
        simp
      · rw [List.foldl_cons, ih2, s2, List.any_cons, Bool.or_assoc]
      · rw [List.foldl_cons, ih3, s2, s3, List.any_cons]
        cases hf : st.dbErrorLogged <;> cases hc : isThrow c.2 <;>
          cases ha : (cs.any fun c => isThrow c.2) <;> simp [hf, hc, ha]

/-- Replacing one element changes `countP` by the difference of the
indicator at the old and new values. -/
lemma countP_set {α : Type} (p : α → Bool) :
    ∀ (l : List α) (i : ℕ) (a b : α), l[i]? = some a →
      (l.set i b).countP p + (if p a then 1 else 0)
        = l.countP p + (if p b then 1 else 0) := by
  intro l
  induction l with
  | nil => intro i a b h; simp at h
  | cons x xs ih =>
      intro i a b h
      cases i with
      | zero =>
          rw [List.getElem?_cons_zero, Option.some_inj] at h
          subst h
          simp only [List.set, List.countP_cons]
          omega
      | succ j =>
          rw [List.getElem?_cons_succ] at h
          have hih := ih j a b h
          simp only [List.set, List.countP_cons]
          cases hpx : p x <;> simp [hpx] <;> omega

/-- `stepCall` preserves the race invariant when the row pre-exists. -/
lemma stepCall_raceInv (base n : ℕ) (cfg : UpsertRace) (i : ℕ)
    (h : raceInv base n cfg) : raceInv base n (stepCall cfg i) := by
  obtain ⟨hlen, hcap, r, hstore, hruns⟩ := h
  cases hget : cfg.calls[i]? with
  | none =>
      simp only [raceInv, stepCall, hget]
      exact ⟨hlen, hcap, r, hstore, hruns⟩
  | some c =>
      obtain ⟨e, phase⟩ := c
      cases phase with
      | pending =>
          have hcnt := countP_set (fun c => decide (c.2 = CallPhase.finished))
            cfg.calls i (e, CallPhase.pending) (e, CallPhase.readDone cfg.store) hget
          simp only [decide_eq_true_eq] at hcnt
          rw [if_neg (by simp), if_neg (by simp)] at hcnt
          simp only [raceInv, stepCall, hget]
          refine ⟨by rw [List.length_set]; exact hlen, ?_, r, hstore, ?_⟩
          · intro c hc cap hphase
            rcases List.mem_or_eq_of_mem_set hc with hold | hnew
            · exact hcap c hold cap hphase
            · subst hnew
              injection hphase with hx
              rw [← hx, hstore]
              rfl
          · rw [hruns]
            simp only [finishedCount]
            omega
      | readDone captured =>
          have hmem : (e, CallPhase.readDone captured) ∈ cfg.calls :=
            List.getElem?_mem hget
          have hsome : captured.isSome = true := hcap _ hmem captured rfl
          obtain ⟨cur0, hcur⟩ := Option.isSome_iff_exists.mp hsome
          have hcnt := countP_set (fun c => decide (c.2 = CallPhase.finished))
            cfg.calls i (e, CallPhase.readDone captured) (e, CallPhase.finished) hget
          simp only [decide_eq_true_eq] at hcnt
          rw [if_neg (by simp), if_pos (by simp)] at hcnt
          simp only [raceInv, stepCall, hget]
          refine ⟨by rw [List.length_set]; exact hlen, ?_, ?_⟩
          · intro c hc cap hphase
            rcases List.mem_or_eq_of_mem_set hc with hold | hnew
            · exact hcap c hold cap hphase
            · subst hnew
              exact absurd hphase (by simp)
          · refine ⟨updateTestHistoryRow r (historyParams e.1 e.2), ?_, ?_⟩
            · rw [hcur, hstore]
              rfl
            · show r.totalRuns + 1 = base + _
              simp only [finishedCount] at hruns ⊢
              omega
      | finished =>
          simp only [raceInv, stepCall, hget]
          exact ⟨hlen, hcap, r, hstore, hruns⟩

/-- The race invariant is preserved along any schedule. -/
lemma runSchedule_raceInv (base n : ℕ) (sched : List ℕ) :
    ∀ cfg, raceInv base n cfg → raceInv base n (runSchedule cfg sched) := by
  induction sched with
  | nil => intro cfg h; exact h
  | cons s ss ih =>
      intro cfg h
      exact ih (stepCall cfg s) (stepCall_raceInv base n cfg s h)

end TestAnalytics

namespace TestAnalytics

/-- C1 (amended): after `N` results for one identifier, `totalRuns = N`
always; `passCount + failCount + skipCount` equals the number of those
results whose status is `passed`, `failed`, or `skipped`, hence equals `N`
whenever every status is among those three (but not for `timedOut` /
`interrupted` results). -/
theorem c1_history_counter_amended (events : List (TestResult × String)) (hne : events ≠ []) :
    ∃ h, processHistory events = some h ∧
      h.totalRuns = events.length ∧
      h.passCount + h.failCount + h.skipCount = countedStatuses events ∧
      ((∀ e ∈ events, e.1.status = Status.passed ∨ e.1.status = Status.failed ∨
          e.1.status = Status.skipped) →
        h.passCount + h.failCount + h.skipCount = events.length) := by
  match events with
  | [] => exact absurd rfl hne
  | e :: es =>
      obtain ⟨h1, h2, _, _⟩ := insertTestHistory_counts e.1 e.2
      obtain ⟨h, hfold, ht, hc, _, _⟩ := processHistory_fold es (updateTestHistory none e.1 e.2)
      refine ⟨h, hfold, ?_, ?_, ?_⟩
      · rw [ht, h1, List.length_cons]
        omega
      · rw [hc, h2, countedStatuses_cons]
        omega
      · intro hall
        rw [hc, h2, List.length_cons]
        have hcount : countedStatuses es = es.length := by
          refine List.countP_eq_length.mpr fun a ha => ?_
          simpa using hall a (List.mem_cons_of_mem e ha)
        have he : (if e.1.status = Status.passed ∨ e.1.status = Status.failed ∨
            e.1.status = Status.skipped then 1 else 0) = 1 :=
          if_pos (hall e (List.mem_cons_self e es))
        omega

/-- C1 witness: two counted results; the theorem applied at a concrete
input. -/
theorem c1_history_counter_witness :
    ∃ h, processHistory [(sampleResult Status.passed 5, "a"), (sampleResult Status.failed 7, "b")]
        = some h ∧
      h.totalRuns = 2 ∧
      h.passCount + h.failCount + h.skipCount
        = countedStatuses [(sampleResult Status.passed 5, "a"), (sampleResult Status.failed 7, "b")] ∧
      ((∀ e ∈ [(sampleResult Status.passed 5, "a"), (sampleResult Status.failed 7, "b")],
          e.1.status = Status.passed ∨ e.1.status = Status.failed ∨ e.1.status = Status.skipped) →
        h.passCount + h.failCount + h.skipCount = 2) :=
  c1_history_counter_amended
    [(sampleResult Status.passed 5, "a"), (sampleResult Status.failed 7, "b")] (by simp)

/-- C1 counterexample: a single `timedOut` result gives `totalRuns = 1` but
`passCount + failCount + skipCount = 0`, refuting
`passCount + failCount + skipCount == N`. -/
theorem c1_history_counter_counterexample :
    (processHistory [(sampleResult Status.timedOut 5, "ts")]).map
        (fun h => (h.totalRuns, h.passCount + h.failCount + h.skipCount))
      = some (1, 0) := rfl

/-- C2: the incremental-mean update — on an existing row the new stored
average is `(oldAvg * oldTotalRuns + d) / (oldTotalRuns + 1)`; on the first
result for an identifier the average is seeded to `d`. -/
theorem c2_incremental_average (old : HistoryRow) (r : TestResult) (now : String) :
    (updateTestHistory (some old) r now).avgDurationMs
        = (old.avgDurationMs * (old.totalRuns : ℚ) + r.durationMs) / ((old.totalRuns : ℚ) + 1) ∧
    (updateTestHistory none r now).avgDurationMs = r.durationMs :=
  ⟨rfl, rfl⟩

/-- C3: after a non-empty sequence of durations, the stored max is the
sequence maximum; the min update fires exactly when the new duration is
below the old min or the old min is the zero sentinel; consequently, for
positive durations the stored min is the sequence minimum. -/
theorem c3_min_max (e : TestResult × String) (es : List (TestResult × String))
    (hpos : ∀ x ∈ e :: es, 0 < x.1.durationMs) :
    ∃ h, processHistory (e :: es) = some h ∧
      h.maxDurationMs = (es.map fun x => x.1.durationMs).foldl max e.1.durationMs ∧
      (∀ (old : HistoryRow) (p : HistoryParams),
        (updateTestHistoryRow old p).minDurationMs
          = if p.durationMs < old.minDurationMs ∨ old.minDurationMs = 0 then p.durationMs
            else old.minDurationMs) ∧
      h.minDurationMs = (es.map fun x => x.1.durationMs).foldl min e.1.durationMs := by
  obtain ⟨_, _, hmax, hmin⟩ := insertTestHistory_counts e.1 e.2
  obtain ⟨h, hfold, _, _, h3, h4⟩ := processHistory_fold es (updateTestHistory none e.1 e.2)
  have hd : 0 < e.1.durationMs := hpos e (List.mem_cons_self e es)
  obtain ⟨h5, _⟩ := h4 (by rw [hmin]; exact hd)
    (fun x hx => hpos x (List.mem_cons_of_mem e hx))
  exact ⟨h, hfold, by rw [h3, hmax], fun old p => rfl, by rw [h5, hmin]⟩

/-- C3 witness: durations `[10, 4, 6]`; the theorem applied at a concrete
input. -/
theorem c3_min_max_witness :
    ∃ h, processHistory [(sampleResult Status.passed 10, "a"), (sampleResult Status.passed 4, "b"),
        (sampleResult Status.passed 6, "c")] = some h ∧
      h.maxDurationMs
        = ([(sampleResult Status.passed 4, "b"), (sampleResult Status.passed 6, "c")].map
            fun x => x.1.durationMs).foldl max 10 ∧
      (∀ (old : HistoryRow) (p : HistoryParams),
        (updateTestHistoryRow old p).minDurationMs
          = if p.durationMs < old.minDurationMs ∨ old.minDurationMs = 0 then p.durationMs
            else old.minDurationMs) ∧
      h.minDurationMs
        = ([(sampleResult Status.passed 4, "b"), (sampleResult Status.passed 6, "c")].map
            fun x => x.1.durationMs).foldl min 10 :=
  c3_min_max (sampleResult Status.passed 10, "a")
    [(sampleResult Status.passed 4, "b"), (sampleResult Status.passed 6, "c")]
    (by intro x hx; fin_cases hx <;> norm_num [sampleResult])

/-- C4: `getFlakyTests(limit)` returns exactly the rows passing
`totalRuns >= 2 AND failCount > 0 AND passCount > 0`, ordered by flakiness
score descending and truncated to the limit; the never-passed row
(`totalRuns=1, failCount=1, passCount=0`) is excluded and the
`totalRuns=5, passCount=4, failCount=1` row is included with score 20. -/
theorem c4_flaky_tests (limit : ℕ) (rows : List HistoryRow)
    (hfit : (rows.filter isFlakyCandidate).length ≤ limit) :
    (∀ h ∈ getFlakyTests limit rows,
        h ∈ rows ∧ 2 ≤ h.totalRuns ∧ 0 < h.failCount ∧ 0 < h.passCount) ∧
    (∀ h ∈ rows, 2 ≤ h.totalRuns → 0 < h.failCount → 0 < h.passCount →
        h ∈ getFlakyTests limit rows) ∧
    (getFlakyTests limit rows).Sorted flakyOrder ∧
    (getFlakyTests limit rows).length = min limit (rows.filter isFlakyCandidate).length ∧
    getFlakyTests 10 [neverPassedRow, flaky20Row] = [flaky20Row] ∧
    flakinessScore flaky20Row = 20 := by
  have hperm := List.perm_insertionSort flakyOrder (rows.filter isFlakyCandidate)
  refine ⟨?_, ?_, ?_, ?_, ?_, ?_⟩
  · intro h hmem
    have hsort : h ∈ List.insertionSort flakyOrder (rows.filter isFlakyCandidate) :=
      (List.take_sublist limit _).subset hmem
    have hfilter : h ∈ rows.filter isFlakyCandidate := hperm.mem_iff.mp hsort
    obtain ⟨hrows, hcand⟩ := List.mem_filter.mp hfilter
    simp only [isFlakyCandidate, Bool.and_eq_true, decide_eq_true_eq] at hcand
    exact ⟨hrows, hcand.1.1, hcand.1.2, hcand.2⟩
  · intro h hrows h2 hf hp
    have hfilter : h ∈ rows.filter isFlakyCandidate := by
      refine List.mem_filter.mpr ⟨hrows, ?_⟩
      simp only [isFlakyCandidate, Bool.and_eq_true, decide_eq_true_eq]
      exact ⟨⟨h2, hf⟩, hp⟩
    have hsort : h ∈ List.insertionSort flakyOrder (rows.filter isFlakyCandidate) :=
      hperm.mem_iff.mpr hfilter
    have hlen : (List.insertionSort flakyOrder (rows.filter isFlakyCandidate)).length ≤ limit := by
      rw [hperm.length_eq]
      exact hfit
    rw [getFlakyTests, List.take_of_length_le hlen]
    exact hsort
  · exact List.Pairwise.sublist (List.take_sublist limit _)
      (List.sorted_insertionSort flakyOrder (rows.filter isFlakyCandidate))
  · rw [getFlakyTests, List.length_take, hperm.length_eq]
  · rfl
  · norm_num [flakinessScore, flaky20Row]

/-- C4 witness: the theorem applied at the scenario store with limit 10. -/
theorem c4_flaky_tests_witness :
    (∀ h ∈ getFlakyTests 10 [neverPassedRow, flaky20Row],
        h ∈ [neverPassedRow, flaky20Row] ∧ 2 ≤ h.totalRuns ∧ 0 < h.failCount ∧ 0 < h.passCount) ∧
    (∀ h ∈ [neverPassedRow, flaky20Row], 2 ≤ h.totalRuns → 0 < h.failCount → 0 < h.passCount →
        h ∈ getFlakyTests 10 [neverPassedRow, flaky20Row]) ∧
    (getFlakyTests 10 [neverPassedRow, flaky20Row]).Sorted flakyOrder ∧
    (getFlakyTests 10 [neverPassedRow, flaky20Row]).length
      = min 10 ([neverPassedRow, flaky20Row].filter isFlakyCandidate).length ∧
    getFlakyTests 10 [neverPassedRow, flaky20Row] = [flaky20Row] ∧
    flakinessScore flaky20Row = 20 :=
  c4_flaky_tests 10 [neverPassedRow, flaky20Row] (by decide)

/-- C5 counterexample: `getTestHistory` of a row with `totalRuns = 1 ≥ 1`
returns a record whose `flakinessScore` is omitted — `SELECT *` carries no
`flakiness_score` column — refuting that the score is defined whenever
`totalRuns ≥ 1` on every read operation. -/
theorem c5_flakiness_counterexample :
    ∃ r, getTestHistory [neverPassedRow] "t-never" = some r ∧
      1 ≤ r.totalRuns ∧ r.flakinessScore = none :=
  ⟨mapToTestHistory ⟨neverPassedRow, none⟩, rfl, by decide, rfl⟩

/-- C5 (amended): only records returned by `getFlakyTests` carry
`flakinessScore = failCount / totalRuns * 100`, which is nonnegative and at
most 100 when `failCount ≤ totalRuns`; the `SELECT *` read operations
(`getTestHistory`, `getSlowestTests`) always omit the score, regardless of
`totalRuns`. -/
theorem c5_flakiness_amended (limit : ℕ) (rows : List HistoryRow) (tid : String)
    (hbound : ∀ h ∈ rows, h.failCount ≤ h.totalRuns) :
    (∀ r ∈ getFlakyTestsMapped limit rows,
        r.flakinessScore = some ((r.failCount : ℚ) / (r.totalRuns : ℚ) * 100) ∧
        ∃ q, r.flakinessScore = some q ∧ 0 ≤ q ∧ q ≤ 100) ∧
    (∀ r, getTestHistory rows tid = some r → r.flakinessScore = none) ∧
    (∀ r ∈ getSlowestTests limit rows, r.flakinessScore = none) := by
  refine ⟨?_, ?_, ?_⟩
  · intro r hr
    obtain ⟨h, hmem, hmap⟩ := List.mem_map.mp hr
    have hsound : h ∈ rows ∧ 2 ≤ h.totalRuns ∧ 0 < h.failCount ∧ 0 < h.passCount := by
      have hperm := List.perm_insertionSort flakyOrder (rows.filter isFlakyCandidate)
      have hsort : h ∈ List.insertionSort flakyOrder (rows.filter isFlakyCandidate) :=
        (List.take_sublist limit _).subset hmem
      obtain ⟨hrows, hcand⟩ := List.mem_filter.mp (hperm.mem_iff.mp hsort)
      simp only [isFlakyCandidate, Bool.and_eq_true, decide_eq_true_eq] at hcand
      exact ⟨hrows, hcand.1.1, hcand.1.2, hcand.2⟩
    have htpos : (0 : ℚ) < (h.totalRuns : ℚ) := by
      exact_mod_cast lt_of_lt_of_le (by norm_num) hsound.2.1
    have hfle : (h.failCount : ℚ) ≤ (h.totalRuns : ℚ) := by
      exact_mod_cast hbound h hsound.1
    constructor
    · rw [← hmap]
      rfl
    · refine ⟨flakinessScore h, by rw [← hmap]; rfl, ?_, ?_⟩
      · exact mul_nonneg (div_nonneg (by positivity) htpos.le) (by norm_num)
      · have hdiv : (h.failCount : ℚ) / (h.totalRuns : ℚ) ≤ 1 :=
          (div_le_one htpos).mpr hfle
        calc (h.failCount : ℚ) / (h.totalRuns : ℚ) * 100
            ≤ 1 * 100 := by
              exact mul_le_mul_of_nonneg_right hdiv (by norm_num)
          _ = 100 := by norm_num
  · intro r hr
    obtain ⟨h, _, hmap⟩ := Option.map_eq_some'.mp hr
    rw [← hmap]
    rfl
  · intro r hr
    obtain ⟨h, _, hmap⟩ := List.mem_map.mp hr
    rw [← hmap]
    rfl

/-- C5 witness: the theorem applied at the scenario store. -/
theorem c5_flakiness_amended_witness :
    (∀ r ∈ getFlakyTestsMapped 10 [neverPassedRow, flaky20Row],
        r.flakinessScore = some ((r.failCount : ℚ) / (r.totalRuns : ℚ) * 100) ∧
        ∃ q, r.flakinessScore = some q ∧ 0 ≤ q ∧ q ≤ 100) ∧
    (∀ r, getTestHistory [neverPassedRow, flaky20Row] "t-never" = some r →
        r.flakinessScore = none) ∧
    (∀ r ∈ getSlowestTests 10 [neverPassedRow, flaky20Row], r.flakinessScore = none) :=
  c5_flakiness_amended 10 [neverPassedRow, flaky20Row] "t-never" (by decide)

/-- C6: for the finalized run snapshot written by `onEnd`, the stored
`passRate` equals `passed / totalTests * 100` whenever `totalTests > 0`,
and equals 0 when `totalTests = 0` (exactly, in rational arithmetic). -/
theorem c6_pass_rate (results : List TestResult) (durationMs : ℚ) (finishedAt : String) :
    (updateTestRunFinal (onEndSummary results durationMs) finishedAt).passRate
        = (onEndSummary results durationMs).passRate ∧
    (0 < (onEndSummary results durationMs).totalTests →
      (onEndSummary results durationMs).passRate
        = ((onEndSummary results durationMs).passed : ℚ)
            / ((onEndSummary results durationMs).totalTests : ℚ) * 100) ∧
    ((onEndSummary results durationMs).totalTests = 0 →
      (onEndSummary results durationMs).passRate = 0) := by
  refine ⟨rfl, ?_, ?_⟩
  · intro hpos
    simp only [onEndSummary] at hpos ⊢
    rw [if_pos hpos]
  · intro hzero
    simp only [onEndSummary] at hzero ⊢
    rw [if_neg (by omega)]

/-- C6 witness: the theorem applied at a concrete run of four results
(three passed, one failed). -/
theorem c6_pass_rate_witness :
    0 < (onEndSummary demoResults 1000).totalTests ∧
    (onEndSummary demoResults 1000).passRate
      = ((onEndSummary demoResults 1000).passed : ℚ)
          / ((onEndSummary demoResults 1000).totalTests : ℚ) * 100 :=
  ⟨by decide, (c6_pass_rate demoResults 1000 "t-end").2.1 (by decide)⟩

set_option maxRecDepth 20000 in
/-- C7: the claim fails on the code — `generateFailureRow` interpolates the
raw test name, so a name containing `<script>` reaches the artifact as live
markup, even though `escapeHtml` (applied to the error message, whose
markup does not survive) would have neutralized it. -/
theorem c7_escaping_code_bug :
    ("<script>".data <:+: (generateFailureRow scriptNameTest).data) ∧
    ¬ ("<script>".data <:+: (escapeHtml "<script>alert(1)</script>").data) ∧
    ¬ ("<b>".data <:+: (generateFailureRow scriptNameTest).data) := by
  refine ⟨?_, ?_, ?_⟩ <;> decide

/-- C8: when some storage write during `onTestEnd` throws, every call still
returns (the step function is total), every result is still collected, and
the error is logged exactly once for the run. -/
theorem c8_storage_error_logged_once (calls : List (TestResult × Except String Unit))
    (hthrow : (calls.any fun c => isThrow c.2) = true) :
    (runTestEnds calls).results = calls.map Prod.fst ∧
    (runTestEnds calls).errorLogCount = 1 := by
  obtain ⟨h1, -, h3⟩ := runTestEnds_fold calls initRunState
  constructor
  · simp only [runTestEnds]
    rw [h1]
    simp [initRunState]
  · simp only [runTestEnds]
    rw [h3, hthrow]
    simp [initRunState]

/-- C8 witness: a run of four calls where the second and third writes
throw; the theorem applied at that input. -/
theorem c8_storage_error_logged_once_witness :
    (runTestEnds errorCalls).results = errorCalls.map Prod.fst ∧
    (runTestEnds errorCalls).errorLogCount = 1 :=
  c8_storage_error_logged_once errorCalls (by decide)

/-- C9 counterexample: with no pre-existing history row, the interleaving
in which both calls perform their SELECT before either writes (schedule
`[0, 1, 0, 1]`) completes both calls yet leaves `totalRuns = 1`, not
`K = 2`: the second INSERT hits the UNIQUE constraint and is dropped. -/
theorem c9_lost_update_counterexample :
    ((runSchedule (initRace none raceEvents) [0, 1, 0, 1]).store).map
        (fun r => r.totalRuns) = some 1 ∧
    raceEvents.length = 2 ∧
    (∀ c ∈ (runSchedule (initRace none raceEvents) [0, 1, 0, 1]).calls,
      c.2 = CallPhase.finished) :=
  ⟨rfl, rfl, by decide⟩

/-- C9 (amended): when a history row for the identifier already exists
before the K concurrent calls start, every interleaving that completes all
calls ends with `totalRuns` = old `totalRuns` + K — the UPDATE's engine-side
arithmetic increments commute. (Without a pre-existing row, colliding
INSERTs can lose updates; see the counterexample.) -/
theorem c9_no_lost_update_amended (h0 : HistoryRow) (events : List (TestResult × String))
    (sched : List ℕ)
    (hall : ∀ c ∈ (runSchedule (initRace (some h0) events) sched).calls,
        c.2 = CallPhase.finished) :
    ∃ r, (runSchedule (initRace (some h0) events) sched).store = some r ∧
      r.totalRuns = h0.totalRuns + events.length := by
  have hinit : raceInv h0.totalRuns events.length (initRace (some h0) events) := by
    refine ⟨by simp [initRace], ?_, h0, rfl, ?_⟩
    · intro c hc cap hphase
      obtain ⟨e, -, hce⟩ := List.mem_map.mp hc
      rw [← hce] at hphase
      exact absurd hphase (by simp)
    · have hz : finishedCount (initRace (some h0) events) = 0 := by
        simp only [finishedCount, initRace, List.countP_map]
        exact List.countP_eq_zero.mpr fun a _ => by simp [Function.comp]
      rw [hz]
      rfl
  obtain ⟨hlen, -, r, hstore, hruns⟩ :=
    runSchedule_raceInv h0.totalRuns events.length sched _ hinit
  refine ⟨r, hstore, ?_⟩
  have hfin : finishedCount (runSchedule (initRace (some h0) events) sched)
      = (runSchedule (initRace (some h0) events) sched).calls.length := by
    simp only [finishedCount]
    exact List.countP_eq_length.mpr fun c hc => by simp [hall c hc]
  rw [hruns, hfin, hlen]

/-- C9 witness: two calls against an existing row (five prior runs) under a
serialized schedule; the theorem applied at that input. -/
theorem c9_no_lost_update_witness :
    ∃ r, (runSchedule (initRace (some flaky20Row) raceEvents) [0, 0, 1, 1]).store = some r ∧
      r.totalRuns = flaky20Row.totalRuns + raceEvents.length :=
  c9_no_lost_update_amended flaky20Row raceEvents [0, 0, 1, 1] (by decide)

/-- C10: a constructor-time store failure leaves `db = null` with the error
recorded, and every lifecycle call still returns normally (all the step
functions are total), performs no store writes, and `onEnd` reports that no
results were stored. -/
theorem c10_init_failure_degrades (e : String) (t : TestResult) (r : DbReporterState) :
    (mkDbReporter (Except.error e)).db = none ∧
    (mkDbReporter (Except.error e)).initError = some e ∧
    onBeginWrites (mkDbReporter (Except.error e)) = [] ∧
    (r.db = none →
      (onTestEndStep r t).2 = [] ∧ (onTestEndStep r t).1.db = none ∧
      (onTestEndStep r t).1.initError = r.initError ∧
      (onTestEndStep r t).1.results = r.results ++ [t]) ∧
    (r.db = none → onEndStep r = ([], true)) := by
  refine ⟨rfl, rfl, rfl, ?_, ?_⟩
  · intro hdb
    refine ⟨?_, ?_, rfl, rfl⟩ <;> simp [onTestEndStep, hdb]
  · intro hdb
    simp [onEndStep, hdb]

/-- C10 witness: the theorem applied to a reporter whose construction
failed with a schema error, hypotheses discharged at that input. -/
theorem c10_init_failure_witness :
    (onTestEndStep (mkDbReporter (Except.error "schema failure"))
        (sampleResult Status.passed 5)).2 = [] ∧
    (onTestEndStep (mkDbReporter (Except.error "schema failure"))
        (sampleResult Status.passed 5)).1.db = none ∧
    (onTestEndStep (mkDbReporter (Except.error "schema failure"))
        (sampleResult Status.passed 5)).1.initError
      = (mkDbReporter (Except.error "schema failure")).initError ∧
    (onTestEndStep (mkDbReporter (Except.error "schema failure"))
        (sampleResult Status.passed 5)).1.results
      = (mkDbReporter (Except.error "schema failure")).results ++ [sampleResult Status.passed 5] ∧
    onEndStep (mkDbReporter (Except.error "schema failure")) = ([], true) := by
  obtain ⟨-, -, -, h4, h5⟩ := c10_init_failure_degrades "schema failure"
    (sampleResult Status.passed 5) (mkDbReporter (Except.error "schema failure"))
  obtain ⟨a, b, c, d⟩ := h4 rfl
  exact ⟨a, b, c, d, h5 rfl⟩

end TestAnalytics
